import Mathlib

/-!
Verification of the journaling app's core logic: the streak calculator
(`calcStreak` in `app/page.tsx`), the paginated list endpoint (`GET` in
`app/api/entries/route.ts`), the creation endpoint (`POST` in the same file),
and the client-side submission flow (`validateInput` / `addEntry` in
`app/page.tsx`).

Modelling conventions:
- Local times are pairs of a calendar-day index and a millisecond offset
  within the day.  JavaScript's `setHours(0,0,0,0)` zeroes the offset;
  `setDate(getDate() - i)` subtracts `i` calendar days.
- The SQLite/Prisma collaborator is modelled as a list of rows in insertion
  order.  `findMany({orderBy: {date: "desc"}})` specifies no secondary sort
  key, so the order among equal-date rows is engine-dependent; the model
  fixes one legitimate deterministic engine behaviour, a stable sort of the
  table in insertion order (`orderedView`).
- Prisma's `cursor: {id}, skip: 1` positions at the first row whose `id`
  equals the cursor in the ordered view and resumes after it; an unknown
  cursor yields an empty page (one of the two policies the route could
  exhibit; no claim depends on this case).
- `JSON.stringify` / `JSON.parse`, restricted to arrays of strings as used
  by the route, are modelled by `jsonEncodeStrings` / `jsonParseStrings`.
  Quote and backslash escaping is modelled; control-character escapes (which
  JSON also round-trips) are not produced by the encoder and are out of
  scope.  A `JSON.parse` failure, which would make the route throw, is
  modelled as `none`.
- JavaScript falsiness on the request body: `!text` holds exactly for the
  empty string; `!effort` holds for a missing number or `0` (modelled as
  `Option Int` being `none` or `some 0`).
- The `createdAt`/`updatedAt` columns of the migration are never read by the
  code under verification and are omitted from the row model.
-/

/-- A local wall-clock instant: a calendar-day index plus the millisecond
offset inside that day.  `setHours(0,0,0,0)` zeroes the offset, and local
calendar-day arithmetic moves the day index. -/
structure LocalTime where
  day : Int
  msOfDay : Nat
  deriving DecidableEq

/-- `d.setHours(0, 0, 0, 0)`: truncate to local midnight. -/
def atMidnight (t : LocalTime) : LocalTime :=
  { day := t.day, msOfDay := 0 }

/-- `d.setDate(d.getDate() - i)`: go back `i` calendar days. -/
def minusDays (t : LocalTime) (i : Nat) : LocalTime :=
  { day := t.day - (i : Int), msOfDay := t.msOfDay }

/-- The client-side `Entry` interface from `types/entry.ts`, with the `date`
string already parsed to a local time. -/
structure CEntry where
  id : String
  text : String
  effort : Int
  tags : List String
  date : LocalTime
  deriving DecidableEq

/-- The `for` loop of `calcStreak`: at index `i` compare the entry's date,
truncated to midnight, with `today - i` days; count matches, stop at the
first mismatch (`streak++` / `break`). -/
def calcStreakLoop (today0 : LocalTime) : List CEntry → Nat → Nat
  | [], _ => 0
  | e :: rest, i =>
    if atMidnight e.date = minusDays today0 i then
      1 + calcStreakLoop today0 rest (i + 1)
    else
      0

/-- `calcStreak` from `app/page.tsx`: early-return 0 on an empty list, then
run the loop against today truncated to midnight. -/
def calcStreak (entries : List CEntry) (today : LocalTime) : Nat :=
  if entries.length = 0 then 0
  else calcStreakLoop (atMidnight today) entries 0

/-- Follows the spec's words, for comparison with `calcStreak`: the length of
the longest prefix of the sequence in which the entry at 0-based index `i`,
normalized to local midnight, equals today's local midnight minus `i` days. -/
def streakSpec (entries : List CEntry) (today : LocalTime) : Nat :=
  (entries.enum.takeWhile (fun p =>
    decide (atMidnight p.2.date = minusDays (atMidnight today) p.1))).length

/-- JSON escaping of one character inside a string literal, as produced by
`JSON.stringify` on the quote and backslash characters; all other characters
the encoder is applied to pass through unchanged. -/
def escChar (c : Char) : List Char :=
  if c = '"' ∨ c = '\\' then ['\\', c] else [c]

/-- Escape every character of a string body. -/
def escapeChars : List Char → List Char
  | [] => []
  | c :: cs => escChar c ++ escapeChars cs

/-- A JSON string literal: quote, escaped body, closing quote. -/
def encodeStringChars (s : List Char) : List Char :=
  '"' :: (escapeChars s ++ ['"'])

/-- The items of a JSON array of strings, comma-separated, with the closing
bracket. -/
def encodeItems : List (List Char) → List Char
  | [] => [']']
  | [s] => encodeStringChars s ++ [']']
  | s :: rest => encodeStringChars s ++ (',' :: encodeItems rest)

/-- `JSON.stringify` restricted to arrays of strings, as used by `POST`. -/
def jsonEncodeStrings (l : List String) : String :=
  String.mk ('[' :: encodeItems (l.map String.data))

/-- Parse the body of a JSON string literal after the opening quote, undoing
the escaping; returns the decoded characters and the input after the closing
quote. -/
def parseStringBody : List Char → Option (List Char × List Char)
  | [] => none
  | c :: rest =>
    if c = '"' then some ([], rest)
    else if c = '\\' then
      match rest with
      | [] => none
      | d :: rest2 =>
        match parseStringBody rest2 with
        | none => none
        | some (s, r) => some (d :: s, r)
    else
      match parseStringBody rest with
      | none => none
      | some (s, r) => some (c :: s, r)

/-- Parse the comma-separated string items of a JSON array followed by the
closing bracket, which must end the input.  `fuel` bounds the number of
items; any fuel at least the item count behaves identically. -/
def parseItems : Nat → List Char → Option (List (List Char))
  | 0, _ => none
  | fuel + 1, input =>
    match input with
    | [] => none
    | c :: rest =>
      if c = '"' then
        match parseStringBody rest with
        | none => none
        | some (s, r) =>
          if r = [']'] then some [s]
          else
            match r with
            | [] => none
            | d :: r2 =>
              if d = ',' then
                match parseItems fuel r2 with
                | none => none
                | some ls => some (s :: ls)
              else none
      else none

/-- `JSON.parse` restricted to arrays of strings: `none` models a thrown
`SyntaxError`. -/
def jsonParseStrings (t : String) : Option (List String) :=
  match t.data with
  | [] => none
  | c :: rest =>
    if c = '[' then
      if rest = [']'] then some []
      else (parseItems rest.length rest).map (fun ls => ls.map String.mk)
    else none

/-- The route's per-row tag decoding `entry.tags ? JSON.parse(entry.tags) : []`:
a falsy (empty) stored string yields `[]` without parsing. -/
def decodeTagsField (t : String) : Option (List String) :=
  if t = "" then some [] else jsonParseStrings t

/-- One `GrowthEntry` row as stored (`tags` is the serialized JSON string).
The `createdAt`/`updatedAt` columns are never read by the routes and are
omitted. -/
structure Row where
  id : String
  date : Int
  text : String
  effort : Int
  tags : String
  deriving DecidableEq

/-- An entry as returned by the API: the row with `tags` decoded. -/
structure ApiEntry where
  id : String
  date : Int
  text : String
  effort : Int
  tags : Option (List String)
  deriving DecidableEq

/-- `const take = 20` in the `GET` route. -/
def pageSize : Nat := 20

/-- Insert a row into a date-descending list, after every row whose date is
at least as large (the stable position for a newly scanned row). -/
def insertByDateDesc (r : Row) : List Row → List Row
  | [] => [r]
  | x :: xs => if r.date ≤ x.date then x :: insertByDateDesc r xs else r :: x :: xs

/-- The engine's answer to `orderBy: { date: "desc" }`: a stable
date-descending sort of the table in insertion order.  The query names no
secondary sort key, so the order among equal-date rows is an engine choice;
this model fixes the stable one (equal-date rows keep insertion order). -/
def orderedView (store : List Row) : List Row :=
  store.foldl (fun acc r => insertByDateDesc r acc) []

/-- The rows available to a `findMany` call: the whole ordered view when the
cursor is absent or falsy (empty string), otherwise the rows strictly after
the first row whose `id` equals the cursor (`cursor: {id}, skip: 1`).  An
unknown cursor yields no rows. -/
def availableRows (store : List Row) (cursor : Option String) : List Row :=
  match cursor with
  | none => orderedView store
  | some c =>
    if c = "" then orderedView store
    else ((orderedView store).dropWhile (fun r => r.id != c)).drop 1

/-- `{...entry, tags: entry.tags ? JSON.parse(entry.tags) : []}`. -/
def toApiEntry (r : Row) : ApiEntry :=
  { id := r.id, date := r.date, text := r.text, effort := r.effort,
    tags := decodeTagsField r.tags }

/-- The `GET` route: fetch `take + 1` rows from the cursor position; if more
than `take` arrived, pop the extra row and use its `id` as `nextCursor`;
decode each returned row's tags. -/
def GET (store : List Row) (cursor : Option String) : List ApiEntry × Option String :=
  let result := (availableRows store cursor).take (pageSize + 1)
  if result.length > pageSize then
    (result.dropLast.map toApiEntry, (result.getLast?).map Row.id)
  else
    (result.map toApiEntry, none)

/-- The `GET` route applied to a raw query string, modelled as an association
list of parameters: `searchParams.get("cursor")` reads the first `cursor`
parameter and every other parameter is never consulted. -/
def GETreq (store : List Row) (params : List (String × String)) :
    List ApiEntry × Option String :=
  GET store (params.lookup "cursor")

/-- The `POST` route.  `fresh` and `now` stand for the store-assigned `id`
and `date`.  `if (!text || !effort) return 400` rejects an empty text and a
missing or zero effort (`effort.getD 0 = 0` holds exactly for `none` and
`some 0`); otherwise the row is appended with `tags` serialized
(`JSON.stringify(tags ?? [])`) and echoed back with `tags` re-parsed.  A
rejection returns `(store, none)`: the store is untouched. -/
def POST (store : List Row) (fresh : String) (now : Int)
    (text : String) (effort : Option Int) (tags : Option (List String)) :
    List Row × Option ApiEntry :=
  if text = "" ∨ effort.getD 0 = 0 then (store, none)
  else
    (store ++ [{ id := fresh, date := now, text := text, effort := effort.getD 0,
                 tags := jsonEncodeStrings (tags.getD []) }],
     some { id := fresh, date := now, text := text, effort := effort.getD 0,
            tags := jsonParseStrings (jsonEncodeStrings (tags.getD [])) })

/-- JavaScript's `String.prototype.trim`: strip leading and trailing
whitespace (the ASCII whitespace characters suffice for the texts under
verification). -/
def jsTrim (s : String) : String :=
  String.mk (((s.data.dropWhile Char.isWhitespace).reverse.dropWhile
    Char.isWhitespace).reverse)

/-- `validateInput` from `app/page.tsx`: reject a blank (whitespace-only)
text, then a text longer than 500 characters. -/
def validateInput (text : String) : Option String :=
  if jsTrim text = "" then some "成長内容を入力してください"
  else if text.length > 500 then some "500文字以内で入力してください"
  else none

/-- `s.split(",")` on the tag input field: split at every comma; the empty
input yields one empty piece, as in JavaScript. -/
def splitOnComma : List Char → List (List Char)
  | [] => [[]]
  | c :: cs =>
    if c = ',' then [] :: splitOnComma cs
    else
      match splitOnComma cs with
      | [] => [[c]]
      | t :: ts => (c :: t) :: ts

/-- The client's tag-field parsing: `tags.split(",").map(t => t.trim()).filter(Boolean)`. -/
def parseTagsInput (s : String) : List String :=
  ((splitOnComma s.data).map (fun t => jsTrim (String.mk t))).filter (fun t => t != "")

/-- The end-to-end creation flow of `addEntry`: client-side `validateInput`
on the raw text, then `POST` with the trimmed text and parsed tags.  The page
always sends the slider's number for `effort`; the `Option` carries the
endpoint's missing-effort case through the same pipeline.  A failure at
either stage leaves the store unchanged. -/
def create (store : List Row) (fresh : String) (now : Int)
    (text : String) (effort : Option Int) (tagsInput : String) :
    List Row × Option ApiEntry :=
  match validateInput text with
  | some _ => (store, none)
  | none => POST store fresh now (jsTrim text) effort (some (parseTagsInput tagsInput))

/-- A row of the 21-row demonstration store: distinct ids `e1`…`e21` and
distinct ascending dates. -/
def mkDemoRow (i : Nat) : Row :=
  { id := "e" ++ toString i, date := (i : Int), text := "t", effort := 1, tags := "[]" }

/-- Twenty-one rows, one more than a page. -/
def demoStore21 : List Row :=
  (List.range 21).map (fun i => mkDemoRow (i + 1))

/-- Two rows with the same date, `a` inserted before `b`. -/
def demoTieStore : List Row :=
  [ { id := "a", date := 5, text := "ta", effort := 1, tags := "[]" },
    { id := "b", date := 5, text := "tb", effort := 1, tags := "[]" } ]

/-! ## Streak calculator -/

theorem calcStreakLoop_eq_takeWhile (today0 : LocalTime) :
    ∀ (l : List CEntry) (i : Nat),
      calcStreakLoop today0 l i =
        ((List.enumFrom i l).takeWhile (fun p =>
          decide (atMidnight p.2.date = minusDays today0 p.1))).length := by
  intro l
  induction l with
  | nil => intro i; simp [calcStreakLoop, List.enumFrom]
  | cons e rest ih =>
    intro i
    by_cases h : atMidnight e.date = minusDays today0 i
    · simp only [calcStreakLoop, if_pos h]
      simp [List.enumFrom, h, ih (i + 1)]
      omega
    · simp [calcStreakLoop, List.enumFrom, h]

theorem calcStreakLoop_pred (today0 : LocalTime) :
    ∀ (l : List CEntry) (i j : Nat), j < calcStreakLoop today0 l i →
      ∃ a, l[j]? = some a ∧ atMidnight a.date = minusDays today0 (i + j) := by
  intro l
  induction l with
  | nil => intro i j hj; simp [calcStreakLoop] at hj
  | cons e rest ih =>
    intro i j hj
    by_cases h : atMidnight e.date = minusDays today0 i
    · rw [calcStreakLoop, if_pos h] at hj
      cases j with
      | zero => exact ⟨e, by simp, by simpa using h⟩
      | succ j' =>
        obtain ⟨a, ha, hd⟩ := ih (i + 1) j' (by omega)
        refine ⟨a, by simpa using ha, ?_⟩
        have harith : i + 1 + j' = i + (j' + 1) := by omega
        rw [hd, harith]
    · rw [calcStreakLoop, if_neg h] at hj
      omega

/-- Claim C1: for every sequence of entries and every fixed today,
`calcStreak` returns the length of the longest prefix in which the entry at
0-based index `i`, normalized to local midnight, equals today's local
midnight minus `i` days (`streakSpec`); in particular the empty sequence
yields 0. -/
theorem calcStreak_eq_streakSpec (entries : List CEntry) (today : LocalTime) :
    calcStreak entries today = streakSpec entries today
    ∧ calcStreak [] today = 0 := by
  constructor
  · cases entries with
    | nil => simp [calcStreak, streakSpec]
    | cons e rest =>
      rw [calcStreak, if_neg (by simp)]
      rw [streakSpec, List.enum, calcStreakLoop_eq_takeWhile]
  · simp [calcStreak]

/-- Claim C9: if positions `i` and `i + 1` hold entries of the same calendar
day, `calcStreak` cannot pass position `i + 1`; in particular for two entries
dated today followed by one dated yesterday it returns 1. -/
theorem calcStreak_same_day_duplicate :
    (∀ (entries : List CEntry) (today : LocalTime) (i : Nat) (a b : CEntry),
        entries[i]? = some a → entries[i + 1]? = some b →
        atMidnight a.date = atMidnight b.date →
        calcStreak entries today ≤ i + 1)
    ∧ (∀ (e1 e2 e3 : CEntry) (today : LocalTime),
        atMidnight e1.date = atMidnight today →
        atMidnight e2.date = atMidnight today →
        atMidnight e3.date = minusDays (atMidnight today) 1 →
        calcStreak [e1, e2, e3] today = 1) := by
  constructor
  · intro entries today i a b ha hb hd
    by_contra hlt
    push_neg at hlt
    cases entries with
    | nil => simp at ha
    | cons e rest =>
      rw [calcStreak, if_neg (by simp)] at hlt
      obtain ⟨a', ha', hda⟩ := calcStreakLoop_pred (atMidnight today) (e :: rest) 0 i (by omega)
      obtain ⟨b', hb', hdb⟩ := calcStreakLoop_pred (atMidnight today) (e :: rest) 0 (i + 1) (by omega)
      rw [ha] at ha'
      rw [hb] at hb'
      cases ha'
      cases hb'
      rw [hda, hdb] at hd
      simp only [minusDays, LocalTime.mk.injEq] at hd
      omega
  · intro e1 e2 e3 today h1 h2 h3
    have hm0 : minusDays (atMidnight today) 0 = atMidnight today := by
      simp [minusDays, atMidnight]
    have hm1 : atMidnight e2.date ≠ minusDays (atMidnight today) 1 := by
      rw [h2]
      intro hcon
      have hday := congrArg LocalTime.day hcon
      simp [atMidnight, minusDays] at hday
      omega
    rw [calcStreak, if_neg (by simp)]
    rw [calcStreakLoop, if_pos (by rw [h1, hm0]), calcStreakLoop, if_neg hm1]

/-- Witness for C9: two concrete entries dated day 100 followed by one dated
day 99, evaluated against a today inside day 100, give a streak of 1. -/
theorem calcStreak_same_day_duplicate_witness :
    calcStreak
      [⟨"a", "x", 1, [], ⟨100, 5⟩⟩, ⟨"b", "y", 2, [], ⟨100, 7⟩⟩, ⟨"c", "z", 3, [], ⟨99, 3⟩⟩]
      ⟨100, 77⟩ = 1 :=
  calcStreak_same_day_duplicate.2
    ⟨"a", "x", 1, [], ⟨100, 5⟩⟩ ⟨"b", "y", 2, [], ⟨100, 7⟩⟩ ⟨"c", "z", 3, [], ⟨99, 3⟩⟩
    ⟨100, 77⟩ (by decide) (by decide) (by decide)

/-! ## JSON tag serialization round-trip -/

theorem parseStringBody_escape :
    ∀ (s rest : List Char), parseStringBody (escapeChars s ++ ('"' :: rest)) = some (s, rest) := by
  intro s
  induction s with
  | nil =>
    intro rest
    simp only [escapeChars, List.nil_append]
    rw [parseStringBody.eq_def]
    simp
  | cons c cs ih =>
    intro rest
    by_cases h : c = '"' ∨ c = '\\'
    · simp only [escapeChars, escChar, if_pos h, List.cons_append, List.nil_append]
      rw [parseStringBody.eq_def]
      simp [ih rest]
    · have h1 : ¬(c = '"') := fun hc => h (Or.inl hc)
      have h2 : ¬(c = '\\') := fun hc => h (Or.inr hc)
      simp only [escapeChars, escChar, if_neg h, List.cons_append, List.nil_append]
      rw [parseStringBody.eq_def]
      simp [h1, h2, ih rest]

theorem parseItems_encodeItems :
    ∀ (L : List (List Char)) (fuel : Nat), L ≠ [] → L.length ≤ fuel →
      parseItems fuel (encodeItems L) = some L := by
  intro L
  induction L with
  | nil => intro fuel h _; exact absurd rfl h
  | cons s rest ih =>
    intro fuel _ hlen
    cases fuel with
    | zero => simp at hlen
    | succ f =>
      cases rest with
      | nil =>
        show parseItems (f + 1) (encodeStringChars s ++ [']']) = some [s]
        simp only [encodeStringChars, List.cons_append, List.append_assoc, List.nil_append]
        rw [parseItems]
        rw [if_pos rfl]
        rw [show (['"', ']'] : List Char) = '"' :: [']'] from rfl]
        rw [parseStringBody_escape s [']']]
        simp
      | cons t ts =>
        show parseItems (f + 1)
            (encodeStringChars s ++ (',' :: encodeItems (t :: ts))) = some (s :: t :: ts)
        simp only [encodeStringChars, List.cons_append, List.append_assoc, List.nil_append]
        rw [parseItems]
        rw [if_pos rfl]
        rw [show ('"' :: ',' :: encodeItems (t :: ts) : List Char) =
          '"' :: (',' :: encodeItems (t :: ts)) from rfl]
        rw [parseStringBody_escape s (',' :: encodeItems (t :: ts))]
        have hne : (',' :: encodeItems (t :: ts)) ≠ [']'] := by
          intro hcon
          simpa using congrArg List.head? hcon
        have hlen2 : (t :: ts).length ≤ f := by
          simp only [List.length_cons] at hlen ⊢
          omega
        simp [hne, ih f (by simp) hlen2]

theorem length_encodeItems_ge : ∀ (L : List (List Char)), L.length ≤ (encodeItems L).length := by
  intro L
  induction L with
  | nil => simp [encodeItems]
  | cons s rest ih =>
    cases rest with
    | nil =>
      simp only [encodeItems, encodeStringChars, List.length_cons, List.length_append,
        List.length_nil]
      omega
    | cons t ts =>
      simp only [encodeItems, encodeStringChars, List.length_cons, List.length_append,
        List.cons_append] at ih ⊢
      omega

theorem encodeItems_cons_head (a : List Char) (R : List (List Char)) :
    (encodeItems (a :: R)).head? = some '"' := by
  cases R with
  | nil => simp [encodeItems, encodeStringChars]
  | cons t ts => simp [encodeItems, encodeStringChars]

theorem jsonEncodeStrings_ne_empty (l : List String) : jsonEncodeStrings l ≠ "" := by
  intro hcon
  have hd := congrArg String.data hcon
  simp [jsonEncodeStrings] at hd

theorem jsonParse_encode (l : List String) :
    jsonParseStrings (jsonEncodeStrings l) = some l := by
  cases l with
  | nil => rfl
  | cons s rest =>
    show (if '[' = '[' then
        if encodeItems ((s :: rest).map String.data) = [']'] then some []
        else (parseItems (encodeItems ((s :: rest).map String.data)).length
          (encodeItems ((s :: rest).map String.data))).map (fun ls => ls.map String.mk)
      else none) = some (s :: rest)
    have hne : encodeItems ((s :: rest).map String.data) ≠ [']'] := by
      intro hcon
      have hh := congrArg List.head? hcon
      rw [List.map_cons, encodeItems_cons_head] at hh
      simp at hh
    rw [if_pos rfl, if_neg hne]
    rw [parseItems_encodeItems ((s :: rest).map String.data) _ (by simp)
      (length_encodeItems_ge _)]
    have hmm : ((s :: rest).map String.data).map String.mk = s :: rest := by
      rw [List.map_map]
      have hcomp : (String.mk ∘ String.data) = id := funext (fun x => rfl)
      rw [hcomp, List.map_id]
    rw [Option.map_some', hmm]

theorem decodeTagsField_encode (l : List String) :
    decodeTagsField (jsonEncodeStrings l) = some l := by
  rw [decodeTagsField, if_neg (jsonEncodeStrings_ne_empty l), jsonParse_encode]


/-- Claim C7: creating an entry with any finite tag list and reading it back
returns exactly the same sequence; an omitted tag list is stored as the
encoding of the empty sequence and read back as the empty sequence, never as
null/absent.  Conjuncts: the stored row carries the serialized tags; the
`POST` response decodes them back to `l`; the `GET`-side decoding of the
stored field yields `l`; a `GET` after creating into an empty store returns
the entry with tags `l`; and the omitted case stores `"[]"`, which decodes to
the empty sequence. -/
theorem tags_roundtrip (store : List Row) (fresh : String) (now : Int) (l : List String) :
    (POST store fresh now "t" (some 2) (some l)).1 =
      store ++ [{ id := fresh, date := now, text := "t", effort := 2,
                  tags := jsonEncodeStrings l }]
    ∧ ((POST store fresh now "t" (some 2) (some l)).2).map ApiEntry.tags = some (some l)
    ∧ decodeTagsField (jsonEncodeStrings l) = some l
    ∧ (GET (POST [] fresh now "t" (some 2) (some l)).1 none).1.map ApiEntry.tags = [some l]
    ∧ (POST store fresh now "t" (some 2) none).1 =
      store ++ [{ id := fresh, date := now, text := "t", effort := 2,
                  tags := jsonEncodeStrings [] }]
    ∧ jsonEncodeStrings [] = "[]"
    ∧ decodeTagsField (jsonEncodeStrings []) = some [] := by
  have hcond : ¬(("t" : String) = "" ∨ Option.getD (some (2 : Int)) 0 = 0) := by decide
  refine ⟨?_, ?_, decodeTagsField_encode l, ?_, ?_, by decide, by decide⟩
  · rw [POST, if_neg hcond]
    rfl
  · rw [POST, if_neg hcond]
    simp [jsonParse_encode]
  · rw [POST, if_neg hcond]
    show (GET [({ id := fresh, date := now, text := "t", effort := 2,
                  tags := jsonEncodeStrings l } : Row)] none).1.map ApiEntry.tags = [some l]
    simp only [GET, availableRows, orderedView, List.foldl_cons, List.foldl_nil,
      insertByDateDesc]
    norm_num [pageSize, toApiEntry, decodeTagsField_encode l]
  · rw [POST, if_neg hcond]
    rfl

/-! ## Pagination -/

theorem GET_page_eq (store : List Row) (c : Option String) :
    (GET store c).1 = ((availableRows store c).take pageSize).map toApiEntry := by
  simp only [GET]
  split
  · next h =>
    have hA : pageSize < (availableRows store c).length := by
      simp only [List.length_take] at h
      omega
    cases h20 : (availableRows store c)[pageSize]? with
    | none =>
      rw [List.getElem?_eq_none_iff] at h20
      omega
    | some a =>
      rw [List.take_succ, h20]
      simp [List.dropLast_concat]
  · next h =>
    have hA : (availableRows store c).length ≤ pageSize := by
      simp only [List.length_take] at h
      omega
    rw [List.take_of_length_le (le_trans hA (by omega)), List.take_of_length_le hA]

theorem GET_next_eq (store : List Row) (c : Option String) :
    (GET store c).2 = ((availableRows store c)[pageSize]?).map Row.id := by
  simp only [GET]
  split
  · next h =>
    have hA : pageSize < (availableRows store c).length := by
      simp only [List.length_take] at h
      omega
    cases h20 : (availableRows store c)[pageSize]? with
    | none =>
      rw [List.getElem?_eq_none_iff] at h20
      omega
    | some a =>
      rw [List.take_succ, h20]
      simp [List.getLast?_concat]
  · next h =>
    have hA : (availableRows store c).length ≤ pageSize := by
      simp only [List.length_take] at h
      omega
    rw [List.getElem?_eq_none hA]
    rfl

theorem GET_page_length_le (store : List Row) (c : Option String) :
    (GET store c).1.length ≤ pageSize := by
  rw [GET_page_eq]
  simp [List.length_take]

theorem insertByDateDesc_perm (r : Row) :
    ∀ l : List Row, List.Perm (insertByDateDesc r l) (r :: l) := by
  intro l
  induction l with
  | nil => simp [insertByDateDesc]
  | cons x xs ih =>
    rw [insertByDateDesc]
    by_cases h : r.date ≤ x.date
    · rw [if_pos h]
      exact (ih.cons x).trans (List.Perm.swap r x xs)
    · rw [if_neg h]

theorem foldl_insert_perm : ∀ (store acc : List Row),
    List.Perm (store.foldl (fun a r => insertByDateDesc r a) acc) (store ++ acc) := by
  intro store
  induction store with
  | nil => intro acc; simp
  | cons r rs ih =>
    intro acc
    simp only [List.foldl_cons, List.cons_append]
    exact (ih (insertByDateDesc r acc)).trans
      (((insertByDateDesc_perm r acc).append_left rs).trans List.perm_middle)

theorem orderedView_perm (store : List Row) : List.Perm (orderedView store) store := by
  have h := foldl_insert_perm store []
  simpa [orderedView] using h

theorem mem_dropWhile_drop_ne (X : String) :
    ∀ l : List Row, ((l.map Row.id).Nodup) →
      ∀ r ∈ ((l.dropWhile (fun r => r.id != X)).drop 1), r.id ≠ X := by
  intro l
  induction l with
  | nil => intro _ r hr; simp [List.dropWhile] at hr
  | cons a t ih =>
    intro hnd r hr
    by_cases ha : a.id = X
    · rw [List.dropWhile_cons_of_neg (by simp [ha])] at hr
      simp only [List.drop_one, List.tail_cons] at hr
      simp only [List.map_cons, List.nodup_cons] at hnd
      intro hrX
      exact hnd.1 (ha ▸ hrX ▸ List.mem_map_of_mem Row.id hr)
    · rw [List.dropWhile_cons_of_pos (by simp [ha])] at hr
      simp only [List.map_cons, List.nodup_cons] at hnd
      exact ih hnd.2 r hr

/-- Claim C4: the returned page is the first `pageSize` available rows (the
fetched extra row is removed), `nextCursor` is exactly the id of the extra
row at position `pageSize` when it exists and null otherwise, every page
holds at most `pageSize` entries, and `nextCursor` is non-null if and only if
more available entries exist beyond the returned page. -/
theorem list_page_window (store : List Row) (cursor : Option String) :
    (GET store cursor).1 = ((availableRows store cursor).take pageSize).map toApiEntry
    ∧ (GET store cursor).2 = ((availableRows store cursor)[pageSize]?).map Row.id
    ∧ (GET store cursor).1.length ≤ pageSize
    ∧ ((GET store cursor).2 ≠ none ↔
        (GET store cursor).1.length < (availableRows store cursor).length) := by
  refine ⟨GET_page_eq store cursor, GET_next_eq store cursor,
    GET_page_length_le store cursor, ?_⟩
  rw [GET_page_eq, GET_next_eq]
  constructor
  · intro h
    simp only [List.length_map, List.length_take]
    by_contra hcon
    push_neg at hcon
    have hle : (availableRows store cursor).length ≤ pageSize := by omega
    rw [List.getElem?_eq_none hle] at h
    simp at h
  · intro h
    simp only [List.length_map, List.length_take] at h
    have h20 : pageSize < (availableRows store cursor).length := by omega
    rw [List.getElem?_eq_getElem h20]
    simp

/-- Claim C5: when the row ids are distinct (they are a primary key) and the
cursor is a store-assigned non-empty id, `list(cursor = X)` never returns the
entry with id `X`: pagination resumes strictly after the cursor row. -/
theorem list_cursor_exclusive (store : List Row) (X : String)
    (hX : X ≠ "") (hnd : (store.map Row.id).Nodup) :
    ((GET store (some X)).1.all (fun e => e.id != X)) = true := by
  rw [List.all_eq_true]
  intro e he
  rw [GET_page_eq] at he
  obtain ⟨r, hr, rfl⟩ := List.mem_map.mp he
  have hrA : r ∈ availableRows store (some X) := List.mem_of_mem_take hr
  have hnd2 : ((orderedView store).map Row.id).Nodup :=
    ((orderedView_perm store).map Row.id).nodup_iff.mpr hnd
  rw [availableRows, if_neg hX] at hrA
  simpa [toApiEntry] using mem_dropWhile_drop_ne X (orderedView store) hnd2 r hrA

/-- Witness for C5 at a concrete two-row store. -/
theorem list_cursor_exclusive_witness :
    ((GET [⟨"a", 1, "t", 1, "[]"⟩, ⟨"b", 2, "t", 1, "[]"⟩] (some "a")).1.all
      (fun e => e.id != "a")) = true :=
  list_cursor_exclusive [⟨"a", 1, "t", 1, "[]"⟩, ⟨"b", 2, "t", 1, "[]"⟩] "a"
    (by decide) (by decide)

/-- Claim C10: for a fixed store the `GET` response is determined solely by
the `cursor` query parameter and holds at most `pageSize` entries; in
particular two requests differing only in a `page` parameter — the parameter
the page component actually sends — receive identical responses. -/
theorem list_response_depends_only_on_cursor :
    (∀ (store : List Row) (p1 p2 : List (String × String)),
        p1.lookup "cursor" = p2.lookup "cursor" → GETreq store p1 = GETreq store p2)
    ∧ (∀ (store : List Row) (params : List (String × String)),
        (GETreq store params).1.length ≤ pageSize)
    ∧ (∀ (store : List Row) (a b : String),
        GETreq store [("page", a)] = GETreq store [("page", b)]) := by
  refine ⟨?_, ?_, ?_⟩
  · intro store p1 p2 h
    rw [GETreq, GETreq, h]
  · intro store params
    exact GET_page_length_le store _
  · intro store a b
    rfl

/-- Witness for C10: two page-numbered requests get the same response. -/
theorem list_response_depends_only_on_cursor_witness :
    GETreq [] [("page", "1")] = GETreq [] [("page", "2")] :=
  list_response_depends_only_on_cursor.1 [] [("page", "1")] [("page", "2")] rfl

/-! ## Validation -/

/-- Claim C2 (amended): the end-to-end create flow fails exactly when the
text is empty or whitespace-only, or the text exceeds 500 characters, or the
effort is absent or zero (JavaScript-falsy); and on any such failure the
store is unchanged — the rejection happens before any storage mutation. -/
theorem create_validation_amended (store : List Row) (fresh : String) (now : Int)
    (text : String) (effort : Option Int) (tagsInput : String) :
    ((create store fresh now text effort tagsInput).2 = none ↔
      (jsTrim text = "" ∨ 500 < text.length ∨ effort = none ∨ effort = some 0))
    ∧ ((create store fresh now text effort tagsInput).2 = none →
        (create store fresh now text effort tagsInput).1 = store) := by
  rw [create, validateInput]
  by_cases h1 : jsTrim text = ""
  · rw [if_pos h1]
    simp [h1]
  · rw [if_neg h1]
    by_cases h2 : text.length > 500
    · rw [if_pos h2]
      simp [h2]
    · rw [if_neg h2]
      rw [POST]
      by_cases h3 : jsTrim text = "" ∨ Option.getD effort 0 = 0
      · rw [if_pos h3]
        have h4 : effort = none ∨ effort = some 0 := by
          rcases h3 with h | h
          · exact absurd h h1
          · cases effort with
            | none => exact Or.inl rfl
            | some e =>
              simp only [Option.getD_some] at h
              exact Or.inr (by rw [h])
        exact ⟨⟨fun _ => Or.inr (Or.inr h4), fun _ => rfl⟩, fun _ => rfl⟩
      · rw [if_neg h3]
        push_neg at h3
        constructor
        · constructor
          · intro hcon
            simp at hcon
          · intro hD
            rcases hD with h | h | h | h
            · exact absurd h h1
            · exact absurd h h2
            · rw [h] at h3
              simp at h3
            · rw [h] at h3
              simp at h3
        · intro hcon
          simp at hcon

/-- Counterexample to Claim C2 as stated: `create` with the valid text
`"ok"` and the present effort `0` fails, although the claim's condition
(empty/whitespace-only text, over-500 text, or absent effort) does not hold —
`!effort` also rejects a zero effort. -/
theorem create_validation_counterexample :
    (create [] "f1" 0 "ok" (some 0) "").2 = none
    ∧ ¬(jsTrim "ok" = "" ∨ 500 < "ok".length ∨ (some (0 : Int) : Option Int) = none) := by
  constructor
  · decide
  · decide

/-- Witness for C2 at a whitespace-only text. -/
theorem create_validation_amended_witness :
    (create [] "f2" 0 " " (some 3) "").2 = none :=
  (create_validation_amended [] "f2" 0 " " (some 3) "").1.mpr (Or.inl (by decide))

/-- Claim C8 (amended): `POST` accepts a request exactly when the text is
non-empty and the effort is present and non-zero; the [1, 5] effort range is
not enforced by the endpoint (the UI slider is its only source of that
bound). -/
theorem effort_validation_amended (store : List Row) (fresh : String) (now : Int)
    (text : String) (effort : Option Int) (tags : Option (List String)) :
    ((POST store fresh now text effort tags).2 ≠ none ↔
      (text ≠ "" ∧ effort ≠ none ∧ effort ≠ some 0)) := by
  rw [POST]
  by_cases hc : text = "" ∨ Option.getD effort 0 = 0
  · rw [if_pos hc]
    constructor
    · intro h
      exact absurd rfl h
    · rintro ⟨ht, he1, he2⟩
      rcases hc with h | h
      · exact absurd h ht
      · cases effort with
        | none => exact absurd rfl he1
        | some e =>
          simp only [Option.getD_some] at h
          exact absurd (by rw [h]) he2
  · rw [if_neg hc]
    push_neg at hc
    constructor
    · intro _
      refine ⟨hc.1, ?_, ?_⟩
      · intro hcon
        rw [hcon] at hc
        simp at hc
      · intro hcon
        rw [hcon] at hc
        simp at hc
    · intro _
      simp

/-- Witness for C8: a non-empty text with effort 7 is accepted. -/
theorem effort_validation_amended_witness :
    (POST [] "f3" 0 "hello" (some 7) none).2 ≠ none :=
  (effort_validation_amended [] "f3" 0 "hello" (some 7) none).mpr
    ⟨by decide, by decide, by decide⟩

/-- Counterexample to Claim C8 as stated: the endpoint accepts and stores
an entry with effort 7, which is outside [1, 5]. -/
theorem effort_range_counterexample :
    (POST [] "f4" 0 "ok" (some 7) (some [])).1.map Row.effort = [7]
    ∧ (POST [] "f4" 0 "ok" (some 7) (some [])).2 ≠ none
    ∧ ¬((1 : Int) ≤ 7 ∧ (7 : Int) ≤ 5) := by
  decide

/-! ## Pagination defects -/

/-- Claim C3 (code bug, demonstrated): on a 21-row store with distinct
dates, the first page returns rows `e21`…`e2` and hands out `nextCursor =
"e1"` — the id of the row popped off the fetched `pageSize + 1` rows — but
the follow-up call resumes strictly after that row (`skip: 1`), so the second
page is empty and row `e1` is returned by no page: the concatenation of the
cursor-chained pages misses a stored entry. -/
theorem pagination_gap_on_21_entries :
    (GET demoStore21 none).2 = some "e1"
    ∧ (GET demoStore21 (some "e1")).1 = []
    ∧ (GET demoStore21 (some "e1")).2 = none
    ∧ "e1" ∈ demoStore21.map Row.id
    ∧ "e1" ∉ ((GET demoStore21 none).1.map (fun e => e.id)) := by
  decide

/-- Claim C6 (code bug, demonstrated): the query orders only by date
descending with no secondary sort key, so the order among equal-date rows is
not fixed by the code; under the stable engine order of the model, two
equal-date rows come back oldest-inserted first (`a` before `b`), not
newest-inserted first as the claim requires. -/
theorem tie_order_not_newest_first :
    demoTieStore.map Row.date = [5, 5]
    ∧ (GET demoTieStore none).1.map (fun e => e.id) = ["a", "b"]
    ∧ (GET demoTieStore none).1.map (fun e => e.id) ≠ ["b", "a"] := by
  decide

/-- Witness for C4 at a concrete store. -/
theorem list_page_window_witness :
    (GET [] none).1 = ((availableRows [] none).take pageSize).map toApiEntry :=
  (list_page_window [] none).1
